import Mathlib

/-!
Verification of the download-counting subsystem of a package registry.

The development embeds, in Lean, the in-memory sharded download counter,
its flush coordinator, and the HTTP-level download/downloads handlers of
src/controllers/version/downloads.rs, and proves the specified properties
about them.  Components whose implementation is referenced but not included
in the sources (the sharded counter and flush coordinator, and the
crate-level downloads route) are modelled from the specification text; each
such definition carries a doc comment saying so.
-/

namespace Crates

/-- A package version identifier: package name plus version string.
Equality is by value (spec section 3, VersionKey). -/
structure VersionKey where
  pkg : String
  ver : String
deriving DecidableEq

/-- Modelled from the spec: the shard count is "fixed at construction"
(spec section 4.1); the concrete value is not in the included sources. -/
def shardCount : Nat := 16

/-- Modelled from the spec: a deterministic hash of a string, used to build
the deterministic hash of a VersionKey (spec section 3, Shard). -/
def strHash (s : String) : Nat :=
  s.foldl (fun h c => h * 31 + c.toNat) 7

/-- Modelled from the spec: deterministic hash of a VersionKey. -/
def hashKey (k : VersionKey) : Nat :=
  strHash k.pkg * 33 + strHash k.ver

/-- Modelled from the spec: the shard of a key is `hash(key) mod shardCount`
(spec section 4.1, increment). -/
def shardOf (k : VersionKey) : Fin shardCount :=
  ⟨hashKey k % shardCount, Nat.mod_lt _ (by decide)⟩

/-- A pending-count map: (VersionKey, day) to a non-negative count
(spec section 3, PendingCount).  Days are integers. -/
abbrev PendingMap := VersionKey → Int → Nat

/-- The everywhere-zero pending map (an empty shard). -/
def PendingMap.zero : PendingMap := fun _ _ => 0

/-- Modelled from the spec: the state of the counting subsystem — the
per-shard pending maps plus the durable per-day records
(spec sections 3 and 4). -/
structure CounterState where
  shards : Fin shardCount → PendingMap
  durable : VersionKey → Int → Nat

/-- The initial state: nothing pending, nothing durable. -/
def CounterState.init : CounterState :=
  { shards := fun _ => PendingMap.zero, durable := fun _ _ => 0 }

/-- Modelled from the spec: `increment(key, day)` locates the shard via
`hash(key) mod shardCount` and increments the in-memory count for
(key, day) by 1, creating the entry if absent (spec section 4.1). -/
def increment (s : CounterState) (k : VersionKey) (d : Int) : CounterState :=
  { s with
    shards := Function.update s.shards (shardOf k)
      (fun k2 d2 =>
        if k2 = k ∧ d2 = d then s.shards (shardOf k) k2 d2 + 1
        else s.shards (shardOf k) k2 d2) }

/-- `n` repeated increments of the same (key, day). -/
def incrementN (s : CounterState) (k : VersionKey) (d : Int) : Nat → CounterState
  | 0 => s
  | n + 1 => increment (incrementN s k d n) k d

/-- Modelled from the spec: the environment of one flush cycle.  `fails i`
says whether the durable-storage transaction for shard `i` fails
(spec section 4.2, atomicity per shard); `mid i` are the increments that
land in shard `i` after its drain snapshot is taken during this cycle
(spec section 5, ordering guarantees). -/
structure FlushEnv where
  fails : Fin shardCount → Bool
  mid : Fin shardCount → PendingMap

/-- The fully successful, quiescent flush environment: no storage failure
and no increments arriving during the cycle. -/
def FlushEnv.ok : FlushEnv :=
  { fails := fun _ => false, mid := fun _ => PendingMap.zero }

/-- Modelled from the spec: the result of a flush cycle — the new counter
state together with the FlushOutcome data: the total delta persisted and
the shards that failed (spec section 3, FlushOutcome). -/
structure FlushState where
  counter : CounterState
  persisted : VersionKey → Int → Nat
  failedShards : List (Fin shardCount)

/-- Modelled from the spec: one shard's step of `persistAllShards`
(spec section 4.2).  The shard is drained (atomically swapped for an empty
map; increments arriving during the attempt land in the live shard), then a
single transaction additively upserts every drained entry into the durable
records; the transaction either fully succeeds or fully fails, and on
failure the drained map is re-merged back into the live shard — adding,
not overwriting, in case new increments arrived during the attempt. -/
def flushShard (env : FlushEnv) (fs : FlushState) (i : Fin shardCount) : FlushState :=
  let drained := fs.counter.shards i
  let liveAfterDrain := env.mid i
  if env.fails i then
    { fs with
      counter := { fs.counter with
        shards := Function.update fs.counter.shards i
          (fun k d => liveAfterDrain k d + drained k d) }
      failedShards := fs.failedShards ++ [i] }
  else
    { counter :=
      { shards := Function.update fs.counter.shards i liveAfterDrain
        durable := fun k d => fs.counter.durable k d + drained k d }
      persisted := fun k d => fs.persisted k d + drained k d
      failedShards := fs.failedShards }

/-- Modelled from the spec: `persistAllShards()` — for each shard in turn,
drain it and attempt to persist the drained map (spec section 4.2). -/
def persistAllShards (s : CounterState) (env : FlushEnv) : FlushState :=
  (List.finRange shardCount).foldl (flushShard env)
    { counter := s, persisted := fun _ _ => 0, failedShards := [] }

/-- The complete unflushed count of (key, day): the union of all shards'
entries (spec section 3, Shard invariant). -/
def pendingTotal (s : CounterState) (k : VersionKey) (d : Int) : Nat :=
  ∑ i, s.shards i k d

/-- Modelled from the spec: a version-level downloads query reads durable
records only — never the in-memory counter — and callers sum the counts of
the trailing 90-day window ending at `endDate` (spec sections 2 and 4.3). -/
def queryVersionTotal (durable : VersionKey → Int → Nat) (k : VersionKey)
    (endDate : Int) : Nat :=
  ∑ d in Finset.Icc (endDate - 89) endDate, durable k d

/-! ## The HTTP layer of src/controllers/version/downloads.rs -/

/-- An HTTP response of the `download` handler: a 302 redirect, or a JSON
`{ "url": ... }` body under content negotiation. -/
inductive Response where
  | redirect (url : String)
  | jsonUrl (url : String)
deriving DecidableEq

/-- The HTTP status code of a response: 302 Found for a redirect,
200 OK for a JSON body. -/
def Response.status : Response → Nat
  | .redirect _ => 302
  | .jsonUrl _ => 200

/-- Embeds `download` (src/controllers/version/downloads.rs, lines 15-27),
the handler of `GET /crates/:crate_id/:version/download`: it computes
`redirect_url` from `app.storage.crate_location(&crate_name, &version)` and
returns either a JSON `{url}` body or a redirect, depending on content
negotiation.  It consults no database and has no error return. -/
def download (crate_location : String → String → String) (wants_json : Bool)
    (crate_name version : String) : Response :=
  let redirect_url := crate_location crate_name version
  if wants_json then Response.jsonUrl redirect_url
  else Response.redirect redirect_url

/-- A row of the `crates` table (the columns the embedded queries use). -/
structure CrateRow where
  id : Int
  name : String
deriving DecidableEq

/-- A row of the `versions` table (the columns the embedded queries use). -/
structure VersionRow where
  id : Int
  crate_id : Int
  num : String
deriving DecidableEq

/-- A row of the `version_downloads` table: the durable per-day record
(version_id, date, downloads). -/
structure VersionDownloadRow where
  version_id : Int
  date : Int
  downloads : Int
deriving DecidableEq

/-- The database state visible to the embedded queries. -/
structure Db where
  crates : List CrateRow
  versions : List VersionRow
  version_downloads : List VersionDownloadRow

/-- The inner join `versions INNER JOIN crates` on
`versions.crate_id = crates.id`, as a list of row pairs. -/
def innerJoinVC (db : Db) : List (VersionRow × CrateRow) :=
  db.versions.flatMap fun v =>
    (db.crates.filter fun c => c.id == v.crate_id).map fun c => (v, c)

/-- Embeds `get_version_id` (src/controllers/version/downloads.rs,
lines 30-37): `SELECT versions.id FROM versions INNER JOIN crates`
filtered by `crates.name = krate` and `versions.num = version`, first row.
String comparison is exact and case-sensitive. -/
def get_version_id (db : Db) (krate version : String) : Option Int :=
  (((((innerJoinVC db).filter fun p => p.2.name == krate).filter
      fun p => p.1.num == version).map fun p => p.1.id)).head?

/-- True exactly on ASCII digits. -/
def isDigitChar (c : Char) : Bool := '0' ≤ c && c ≤ '9'

/-- True on the characters semver identifiers may contain:
ASCII alphanumerics and hyphen. -/
def isIdentChar (c : Char) : Bool :=
  isDigitChar c || ('a' ≤ c && c ≤ 'z') || ('A' ≤ c && c ≤ 'Z') || c == '-'

/-- The numeric value of a digit string. -/
def digitsToNat (cs : List Char) : Nat :=
  cs.foldl (fun a c => a * 10 + (c.toNat - 48)) 0

/-- A valid semver numeric identifier: nonempty, all digits, and no
leading zero (a lone "0" is allowed). -/
def validNumeric (cs : List Char) : Bool :=
  match cs with
  | [] => false
  | ['0'] => true
  | '0' :: _ :: _ => false
  | cs => cs.all isDigitChar

/-- The largest value a `u64` can hold. -/
def u64Max : Nat := 18446744073709551615

/-- A valid `MAJOR`/`MINOR`/`PATCH` component: a semver numeric identifier
whose value fits in a `u64` — `semver::Version::parse` accumulates these
three components with checked `u64` arithmetic and rejects larger values
with an overflow error. -/
def validCoreNum (cs : List Char) : Bool :=
  validNumeric cs && decide (digitsToNat cs ≤ u64Max)

/-- A valid semver pre-release identifier: nonempty, alphanumeric/hyphen,
and if purely numeric then without leading zeros. -/
def validPreId (cs : List Char) : Bool :=
  !cs.isEmpty && cs.all isIdentChar &&
    (if cs.all isDigitChar then validNumeric cs else true)

/-- A valid semver build identifier: nonempty, alphanumeric/hyphen. -/
def validBuildId (cs : List Char) : Bool :=
  !cs.isEmpty && cs.all isIdentChar

/-- The `MAJOR.MINOR.PATCH[-PRERELEASE]` part of a semver string: the
version core is the prefix before the first hyphen and must be three
dot-separated numeric identifiers; everything after that hyphen is the
dot-separated pre-release. -/
def semverCoreAndPre (cs : List Char) : Bool :=
  let core := cs.takeWhile fun c => c != '-'
  let rest := cs.dropWhile fun c => c != '-'
  let coreOk :=
    match core.splitOn '.' with
    | [ma, mi, pa] => validCoreNum ma && validCoreNum mi && validCoreNum pa
    | _ => false
  match rest with
  | [] => coreOk
  | _ :: pre => coreOk && (pre.splitOn '.').all validPreId

/-- Embeds the behaviour of `semver::Version::parse` used at
src/controllers/version/downloads.rs line 46: a string parses exactly when
it is `MAJOR.MINOR.PATCH` with optional `-PRERELEASE` and optional
`+BUILD` suffixes obeying the semver grammar, the three core components
fitting in a `u64` (pre-release and build identifiers carry no such bound:
the crate keeps them as strings). -/
def semverParseOk (s : String) : Bool :=
  match s.toList.splitOn '+' with
  | [core] => semverCoreAndPre core
  | [core, build] => semverCoreAndPre core && (build.splitOn '.').all validBuildId
  | _ => false

/-- A parsed calendar date. -/
structure CalDate where
  y : Int
  m : Int
  d : Int
deriving DecidableEq

/-- Leap-year rule of the proleptic Gregorian calendar. -/
def isLeap (y : Int) : Bool :=
  y % 4 == 0 && (y % 100 != 0 || y % 400 == 0)

/-- Number of days in a month. -/
def monthLen (y m : Int) : Int :=
  if m = 2 then (if isLeap y then 29 else 28)
  else if m = 4 ∨ m = 6 ∨ m = 9 ∨ m = 11 then 30
  else 31

/-- True on the characters of the Unicode White_Space class, the set
`char::is_whitespace` recognizes and `str::trim_start` removes. -/
def isRustWhitespace (c : Char) : Bool :=
  let n := c.toNat
  (9 ≤ n && n ≤ 13) || n == 32 || n == 133 || n == 160 || n == 5760 ||
    (8192 ≤ n && n ≤ 8202) || n == 8232 || n == 8233 || n == 8239 ||
    n == 8287 || n == 12288

/-- Embeds chrono's parsing of the `%Y` field: leading whitespace is
trimmed; an explicit `-` or `+` sign admits any number of digits (at least
one), while an unsigned year consumes at most 4 digits, leaving the rest of
the input in place.  Returns the year value and the remaining input. -/
def parseSignedYear (cs : List Char) : Option (Int × List Char) :=
  let cs1 := cs.dropWhile isRustWhitespace
  match cs1 with
  | '-' :: rest =>
    let ds := rest.takeWhile isDigitChar
    if ds = [] then none
    else some (-(digitsToNat ds : Int), rest.dropWhile isDigitChar)
  | '+' :: rest =>
    let ds := rest.takeWhile isDigitChar
    if ds = [] then none
    else some ((digitsToNat ds : Int), rest.dropWhile isDigitChar)
  | _ =>
    let ds := (cs1.takeWhile isDigitChar).take 4
    if ds = [] then none
    else some ((digitsToNat ds : Int), cs1.drop ds.length)

/-- Embeds chrono's parsing of an unsigned 2-digit field (`%m`, `%d`):
leading whitespace is trimmed, then 1 or 2 digits are consumed, leaving
the rest of the input in place. -/
def parseNum2 (cs : List Char) : Option (Nat × List Char) :=
  let cs1 := cs.dropWhile isRustWhitespace
  let ds := (cs1.takeWhile isDigitChar).take 2
  if ds = [] then none
  else some (digitsToNat ds, cs1.drop ds.length)

/-- Embeds `NaiveDate::parse_from_str(d, "%F")` (chrono, as used at
src/controllers/version/downloads.rs line 56).  `%F` is the item sequence
`%Y`, literal `-`, `%m`, literal `-`, `%d`: the year field trims leading
whitespace and takes either a `+`/`-`-signed digit run or at most 4
unsigned digits, the month and day fields trim whitespace and take 1-2
digits, the literals match exactly, the whole input must be consumed, and
the resulting triple must be a valid proleptic-Gregorian date with the
year inside NaiveDate's representable range [-262144, 262143]. -/
def parseYmd (s : String) : Option CalDate :=
  match parseSignedYear s.toList with
  | none => none
  | some (y, r1) =>
    match r1 with
    | '-' :: r2 =>
      match parseNum2 r2 with
      | none => none
      | some (m, r3) =>
        match r3 with
        | '-' :: r4 =>
          match parseNum2 r4 with
          | none => none
          | some (dd, r5) =>
            if r5 = [] ∧ -262144 ≤ y ∧ y ≤ 262143 ∧
                1 ≤ (m : Int) ∧ (m : Int) ≤ 12 ∧
                1 ≤ (dd : Int) ∧ (dd : Int) ≤ monthLen y m then
              some ⟨y, m, dd⟩
            else none
        | _ => none
    | _ => none

/-- Conversion of a calendar date to a day number (days since the epoch),
mirroring the day-count representation inside chrono's NaiveDate. -/
def daysFromCivil (dt : CalDate) : Int :=
  let y := if dt.m ≤ 2 then dt.y - 1 else dt.y
  let era : Int := (if 0 ≤ y then y else y - 399) / 400
  let yoe : Int := y - era * 400
  let mp : Int := (dt.m + 9) % 12
  let doy : Int := (153 * mp + 2) / 5 + dt.d - 1
  let doe : Int := yoe * 365 + yoe / 4 - yoe / 100 + doy
  era * 146097 + doe - 719468

/-- A date-parameter string as a day number, when it parses. -/
def parseDateF (s : String) : Option Int :=
  (parseYmd s).map daysFromCivil

/-- Embeds lines 53-57 of src/controllers/version/downloads.rs: the
`before_date` query parameter parsed with format `%F`; parse failures and
an absent parameter silently fall back to today's date. -/
def cutoffEndDate (before_date : Option String) (today : Int) : Int :=
  ((before_date.bind parseDateF)).getD today

/-- Ordering of version-download rows by date, as produced by
`.order(version_downloads::date)`. -/
def dateLe (a b : VersionDownloadRow) : Prop := a.date ≤ b.date

instance : DecidableRel dateLe := fun a b => Int.decLe a.date b.date

instance : IsTotal VersionDownloadRow dateLe :=
  ⟨fun a b => Int.le_total a.date b.date⟩

instance : IsTrans VersionDownloadRow dateLe :=
  ⟨fun _ _ _ h1 h2 => le_trans h1 h2⟩

/-- Embeds lines 58-66 of src/controllers/version/downloads.rs: the rows of
`version_downloads` belonging to the version, with `date BETWEEN
(end - 89 days) AND end` (inclusive on both ends), ordered by ascending
date. -/
def queryVersionDownloads (rows : List VersionDownloadRow) (vid : Int)
    (endDate : Int) : List VersionDownloadRow :=
  let cutoff_start_date := endDate - 89
  List.insertionSort dateLe (rows.filter fun r =>
    r.version_id == vid &&
      (decide (cutoff_start_date ≤ r.date) && decide (r.date ≤ endDate)))

/-- A database access performed by the `downloads` handler, in order:
acquiring the read connection, the version lookup, loading the
download rows. -/
inductive DbEvent where
  | acquireConn
  | selectVersion
  | loadDownloads
deriving DecidableEq

/-- An error returned by the embedded handlers.  `badRequest` exists in the
error vocabulary of the service but is never produced by this handler. -/
inductive ApiError where
  | versionNotFound (krate version : String)
  | badRequest (msg : String)
  | poolError
deriving DecidableEq

/-- Embeds `downloads` (src/controllers/version/downloads.rs, lines 40-71),
the handler of `GET /crates/:crate_id/:version/downloads`, together with
the ordered log of database accesses it performs.  The semver check comes
first and returns `version_not_found` without touching the database; then
the read connection is acquired, the version is looked up case-sensitively
(`version_and_crate`, whose lookup is that of `get_version_id`; an
unmatched name is "not found"), the `before_date` parameter is parsed with
fallback to today, and the windowed rows are loaded. -/
def downloads (db : Db) (dbAvailable : Bool) (crate_name version : String)
    (before_date : Option String) (today : Int) :
    Except ApiError (List VersionDownloadRow) × List DbEvent :=
  if semverParseOk version = false then
    (Except.error (ApiError.versionNotFound crate_name version), [])
  else if dbAvailable = false then
    (Except.error ApiError.poolError, [DbEvent.acquireConn])
  else
    match get_version_id db crate_name version with
    | none => (Except.error (ApiError.versionNotFound crate_name version),
        [DbEvent.acquireConn, DbEvent.selectVersion])
    | some vid =>
      let cutoff_end_date := cutoffEndDate before_date today
      (Except.ok (queryVersionDownloads db.version_downloads vid cutoff_end_date),
        [DbEvent.acquireConn, DbEvent.selectVersion, DbEvent.loadDownloads])

/-- Modelled from the spec: the crate-level downloads route
(`krate::downloads`, referenced at line 3 of
src/controllers/version/downloads.rs but not included in the sources).
It sums download counts across all versions of the package over the
trailing 90-day window ending today; the caller-supplied `before_date`
override is parsed but — by design — ignored: package-level totals are
always the trailing window, never historical (spec section 4.3). -/
def queryPackageDownloads (rows : List VersionDownloadRow)
    (pkgVersionIds : List Int) (before_date : Option String)
    (today : Int) : Int :=
  let _cutoff_end_date := cutoffEndDate before_date today
  ((rows.filter fun r =>
      pkgVersionIds.contains r.version_id &&
        (decide (today - 89 ≤ r.date) && decide (r.date ≤ today))).map
    (fun r => r.downloads)).sum

/-! ## Concrete instances used by the closed corollaries -/

/-- A sample version key. -/
def keyEx : VersionKey := ⟨"foo_download", "1.0.0"⟩

/-- A sample counter state: five pending downloads of `keyEx` on day 0. -/
def sEx : CounterState := incrementN CounterState.init keyEx 0 5

/-- A flush environment in which every shard's transaction fails and two
more increments of `keyEx` land during the attempt. -/
def envFailEx : FlushEnv :=
  { fails := fun _ => true
    mid := fun i k2 d2 =>
      if i = shardOf keyEx ∧ k2 = keyEx ∧ d2 = 0 then 2 else 0 }

/-- A sample database: crate `foo_download` with version `1.0.0`
(version id 7) and one download on day 0. -/
def dbEx : Db :=
  { crates := [⟨1, "foo_download"⟩]
    versions := [⟨7, 1, "1.0.0"⟩]
    version_downloads := [⟨7, 0, 1⟩] }

/-- Sample download rows for the package-level query. -/
def rowsEx : List VersionDownloadRow := [⟨7, 0, 1⟩, ⟨8, -3, 4⟩, ⟨9, -200, 2⟩]

/-- Sample version-id list of one package. -/
def idsEx : List Int := [7, 8]

/-- A sample storage-location resolver. -/
def locA (c v : String) : String :=
  String.append c (String.append "/" v)

/-- Another resolver that agrees with `locA` on `("foo", "1.0.0")`. -/
def locB (c v : String) : String :=
  if c = "foo" then String.append "foo/" v else "other"

/-! ## Closed forms of the flush fold -/

theorem flushShard_shards_noteq (env : FlushEnv) (fs : FlushState)
    (a i : Fin shardCount) (h : i ≠ a) :
    (flushShard env fs a).counter.shards i = fs.counter.shards i := by
  unfold flushShard
  by_cases hf : env.fails a <;> simp [hf, Function.update_noteq h]

theorem flushShard_shards_self (env : FlushEnv) (fs : FlushState)
    (a : Fin shardCount) :
    (flushShard env fs a).counter.shards a =
      if env.fails a then
        (fun k d => env.mid a k d + fs.counter.shards a k d)
      else env.mid a := by
  unfold flushShard
  by_cases hf : env.fails a <;> simp [hf]

theorem flushShard_durable (env : FlushEnv) (fs : FlushState)
    (a : Fin shardCount) (k : VersionKey) (d : Int) :
    (flushShard env fs a).counter.durable k d =
      fs.counter.durable k d +
        (if env.fails a then 0 else fs.counter.shards a k d) := by
  unfold flushShard
  by_cases hf : env.fails a <;> simp [hf]

theorem flushShard_persisted (env : FlushEnv) (fs : FlushState)
    (a : Fin shardCount) (k : VersionKey) (d : Int) :
    (flushShard env fs a).persisted k d =
      fs.persisted k d +
        (if env.fails a then 0 else fs.counter.shards a k d) := by
  unfold flushShard
  by_cases hf : env.fails a <;> simp [hf]

theorem foldl_shards_not_mem (env : FlushEnv) (l : List (Fin shardCount)) :
    ∀ (fs : FlushState) (i : Fin shardCount), i ∉ l →
      (l.foldl (flushShard env) fs).counter.shards i = fs.counter.shards i := by
  induction l with
  | nil => intro fs i _; rfl
  | cons a l ih =>
    intro fs i h
    rw [List.foldl_cons, ih _ i (fun m => h (List.mem_cons_of_mem a m))]
    exact flushShard_shards_noteq env fs a i
      (fun e => h (e ▸ List.mem_cons_self a l))

theorem foldl_shards_mem (env : FlushEnv) (l : List (Fin shardCount)) :
    ∀ (fs : FlushState) (i : Fin shardCount), l.Nodup → i ∈ l →
      (l.foldl (flushShard env) fs).counter.shards i =
        if env.fails i then
          (fun k d => env.mid i k d + fs.counter.shards i k d)
        else env.mid i := by
  induction l with
  | nil => intro fs i _ h; exact absurd h (List.not_mem_nil i)
  | cons a l ih =>
    intro fs i hnd hm
    have hna : a ∉ l := (List.nodup_cons.mp hnd).1
    rw [List.foldl_cons]
    by_cases hi : i = a
    · subst hi
      rw [foldl_shards_not_mem env l _ i hna, flushShard_shards_self]
    · have him : i ∈ l := (List.mem_cons.mp hm).resolve_left hi
      rw [ih _ i (List.nodup_cons.mp hnd).2 him,
        flushShard_shards_noteq env fs a i hi]

theorem foldl_durable (env : FlushEnv) (l : List (Fin shardCount)) :
    ∀ (fs : FlushState) (k : VersionKey) (d : Int), l.Nodup →
      (l.foldl (flushShard env) fs).counter.durable k d =
        fs.counter.durable k d +
          (l.map fun i =>
            if env.fails i then 0 else fs.counter.shards i k d).sum := by
  induction l with
  | nil => intro fs k d _; simp
  | cons a l ih =>
    intro fs k d hnd
    have hna : a ∉ l := (List.nodup_cons.mp hnd).1
    rw [List.foldl_cons, ih _ k d (List.nodup_cons.mp hnd).2]
    rw [flushShard_durable]
    have hmap : (l.map fun i =>
        if env.fails i then 0 else (flushShard env fs a).counter.shards i k d)
        = l.map fun i => if env.fails i then 0 else fs.counter.shards i k d := by
      apply List.map_congr_left
      intro i him
      rw [flushShard_shards_noteq env fs a i (fun e => hna (e ▸ him))]
    rw [hmap, List.map_cons, List.sum_cons]
    omega

theorem foldl_persisted (env : FlushEnv) (l : List (Fin shardCount)) :
    ∀ (fs : FlushState) (k : VersionKey) (d : Int), l.Nodup →
      (l.foldl (flushShard env) fs).persisted k d =
        fs.persisted k d +
          (l.map fun i =>
            if env.fails i then 0 else fs.counter.shards i k d).sum := by
  induction l with
  | nil => intro fs k d _; simp
  | cons a l ih =>
    intro fs k d hnd
    have hna : a ∉ l := (List.nodup_cons.mp hnd).1
    rw [List.foldl_cons, ih _ k d (List.nodup_cons.mp hnd).2]
    rw [flushShard_persisted]
    have hmap : (l.map fun i =>
        if env.fails i then 0 else (flushShard env fs a).counter.shards i k d)
        = l.map fun i => if env.fails i then 0 else fs.counter.shards i k d := by
      apply List.map_congr_left
      intro i him
      rw [flushShard_shards_noteq env fs a i (fun e => hna (e ▸ him))]
    rw [hmap, List.map_cons, List.sum_cons]
    omega

theorem persistAllShards_shards (s : CounterState) (env : FlushEnv)
    (i : Fin shardCount) :
    (persistAllShards s env).counter.shards i =
      if env.fails i then
        (fun k d => env.mid i k d + s.shards i k d)
      else env.mid i := by
  unfold persistAllShards
  exact foldl_shards_mem env (List.finRange shardCount) _ i
    (List.nodup_finRange _) (List.mem_finRange i)

theorem persistAllShards_durable (s : CounterState) (env : FlushEnv)
    (k : VersionKey) (d : Int) :
    (persistAllShards s env).counter.durable k d =
      s.durable k d + ∑ i, (if env.fails i then 0 else s.shards i k d) := by
  unfold persistAllShards
  rw [foldl_durable env _ _ k d (List.nodup_finRange _), Fin.sum_univ_def]

theorem persistAllShards_persisted (s : CounterState) (env : FlushEnv)
    (k : VersionKey) (d : Int) :
    (persistAllShards s env).persisted k d =
      ∑ i, (if env.fails i then 0 else s.shards i k d) := by
  unfold persistAllShards
  rw [foldl_persisted env _ _ k d (List.nodup_finRange _), Fin.sum_univ_def]
  simp

/-! ## Increment lemmas -/

theorem increment_durable (s : CounterState) (k : VersionKey) (d : Int) :
    (increment s k d).durable = s.durable := rfl

theorem incrementN_durable (s : CounterState) (k : VersionKey) (d : Int)
    (n : Nat) : (incrementN s k d n).durable = s.durable := by
  induction n with
  | zero => rfl
  | succ n ih => rw [incrementN, increment_durable, ih]

theorem incrementN_shards_init (k : VersionKey) (d : Int) (n : Nat) :
    ∀ (i : Fin shardCount) (k2 : VersionKey) (d2 : Int),
      (incrementN CounterState.init k d n).shards i k2 d2 =
        if i = shardOf k ∧ k2 = k ∧ d2 = d then n else 0 := by
  induction n with
  | zero =>
    intro i k2 d2
    simp [incrementN, CounterState.init, PendingMap.zero]
  | succ n ih =>
    intro i k2 d2
    rw [incrementN]
    by_cases hi : i = shardOf k
    · subst hi
      by_cases hk : k2 = k ∧ d2 = d
      · simp [increment, Function.update_same, ih, hk]
      · simp [increment, Function.update_same, ih, hk]
    · simp [increment, Function.update_noteq hi, ih, hi]

/-! ## Claim theorems for the counter and flush coordinator -/

/-- Claim C1: if a durable-storage failure occurs during a flush of one
shard, the drained counts for that shard are re-merged additively into the
live shard rather than lost (on top of any increments that arrived during
the attempt), so that for every pending count a subsequent successful
`persistAllShards` persists the full original count exactly once — no
loss and no duplication. -/
theorem flush_failure_no_loss_no_duplication (s : CounterState)
    (env1 env2 : FlushEnv) (k : VersionKey) (d : Int)
    (h2f : ∀ i, env2.fails i = false) :
    (∀ i, env1.fails i = true →
      (persistAllShards s env1).counter.shards i k d =
        env1.mid i k d + s.shards i k d)
    ∧ (persistAllShards (persistAllShards s env1).counter env2).counter.durable k d
        = s.durable k d + pendingTotal s k d + ∑ i, env1.mid i k d := by
  constructor
  · intro i hf
    rw [persistAllShards_shards]
    simp [hf]
  · rw [persistAllShards_durable, persistAllShards_durable]
    have hs : ∀ i ∈ Finset.univ (α := Fin shardCount),
        (if env2.fails i then 0
          else (persistAllShards s env1).counter.shards i k d) =
        env1.mid i k d + (if env1.fails i then s.shards i k d else 0) := by
      intro i _
      rw [h2f i, if_neg (by simp), persistAllShards_shards]
      by_cases hf : env1.fails i <;> simp [hf]
    rw [Finset.sum_congr rfl hs, Finset.sum_add_distrib]
    have hsum : (∑ i, (if env1.fails i then 0 else s.shards i k d)) +
        (∑ i, (if env1.fails i then s.shards i k d else 0)) =
        ∑ i, s.shards i k d := by
      rw [← Finset.sum_add_distrib]
      exact Finset.sum_congr rfl fun i _ => by
        by_cases hf : env1.fails i <;> simp [hf]
    unfold pendingTotal
    omega

/-- Closed instance of the C1 theorem: a concrete five-pending-count state,
a cycle in which every shard's transaction fails while two increments land
mid-attempt, then a fully successful cycle. -/
theorem flush_failure_no_loss_witness :
    (persistAllShards sEx envFailEx).counter.shards (shardOf keyEx) keyEx 0 =
      envFailEx.mid (shardOf keyEx) keyEx 0 + sEx.shards (shardOf keyEx) keyEx 0
    ∧ (persistAllShards (persistAllShards sEx envFailEx).counter
        FlushEnv.ok).counter.durable keyEx 0
        = sEx.durable keyEx 0 + pendingTotal sEx keyEx 0 +
            ∑ i, envFailEx.mid i keyEx 0 :=
  ⟨(flush_failure_no_loss_no_duplication sEx envFailEx FlushEnv.ok keyEx 0
      (fun _ => rfl)).1 (shardOf keyEx) rfl,
   (flush_failure_no_loss_no_duplication sEx envFailEx FlushEnv.ok keyEx 0
      (fun _ => rfl)).2⟩

/-- Claim C2: after a first successful flush, a second `persistAllShards`
with no intervening increments persists zero additional downloads and
leaves every durable record unchanged — even if some of its own
transactions fail. -/
theorem flush_idempotent (s : CounterState) (env1 env2 : FlushEnv)
    (h1f : ∀ i, env1.fails i = false)
    (h1m : ∀ i k2 d2, env1.mid i k2 d2 = 0)
    (k : VersionKey) (d : Int) :
    (persistAllShards (persistAllShards s env1).counter env2).counter.durable k d
        = (persistAllShards s env1).counter.durable k d
    ∧ (persistAllShards (persistAllShards s env1).counter env2).persisted k d
        = 0 := by
  have hz : ∀ i, (persistAllShards s env1).counter.shards i k d = 0 := by
    intro i
    rw [persistAllShards_shards]
    simp [h1f i, h1m i]
  have hsum : ∀ i ∈ Finset.univ (α := Fin shardCount),
      (if env2.fails i then 0
        else (persistAllShards s env1).counter.shards i k d) = 0 := by
    intro i _
    by_cases hf : env2.fails i <;> simp [hf, hz i]
  constructor
  · rw [persistAllShards_durable, Finset.sum_congr rfl hsum,
      Finset.sum_const_zero]
    omega
  · rw [persistAllShards_persisted, Finset.sum_congr rfl hsum,
      Finset.sum_const_zero]

/-- Closed instance of the C2 theorem: flushing the concrete five-count
state twice under fully successful quiescent cycles. -/
theorem flush_idempotent_witness :
    (persistAllShards (persistAllShards sEx FlushEnv.ok).counter
        FlushEnv.ok).counter.durable keyEx 0
      = (persistAllShards sEx FlushEnv.ok).counter.durable keyEx 0
    ∧ (persistAllShards (persistAllShards sEx FlushEnv.ok).counter
        FlushEnv.ok).persisted keyEx 0 = 0 :=
  flush_idempotent sEx FlushEnv.ok FlushEnv.ok (fun _ => rfl)
    (fun _ _ _ => rfl) keyEx 0

/-- Claim C3: after `N` increments of the same key and day from the initial
state, a query (which reads durable records only) totals 0 before any
flush, and after exactly one successful `persistAllShards` the durable
record for that key and date holds `N` and the windowed query totals `N`. -/
theorem query_counts_after_single_flush (k : VersionKey) (d : Int) (N : Nat)
    (endDate : Int) (h1 : endDate - 89 ≤ d) (h2 : d ≤ endDate) :
    queryVersionTotal (incrementN CounterState.init k d N).durable k endDate = 0
    ∧ (persistAllShards (incrementN CounterState.init k d N)
        FlushEnv.ok).counter.durable k d = N
    ∧ queryVersionTotal
        (persistAllShards (incrementN CounterState.init k d N)
          FlushEnv.ok).counter.durable k endDate = N := by
  have hdur : ∀ d2 : Int,
      (persistAllShards (incrementN CounterState.init k d N)
        FlushEnv.ok).counter.durable k d2 = if d2 = d then N else 0 := by
    intro d2
    rw [persistAllShards_durable, incrementN_durable]
    have hsum : ∀ i ∈ Finset.univ (α := Fin shardCount),
        (if FlushEnv.ok.fails i then 0
          else (incrementN CounterState.init k d N).shards i k d2) =
        (if i = shardOf k ∧ d2 = d then N else 0) := by
      intro i _
      rw [incrementN_shards_init]
      simp [FlushEnv.ok]
    rw [Finset.sum_congr rfl hsum]
    by_cases hd : d2 = d
    · have : ∀ i ∈ Finset.univ (α := Fin shardCount),
          (if i = shardOf k ∧ d2 = d then (N : Nat) else 0) =
          (if i = shardOf k then N else 0) := fun i _ => by simp [hd]
      rw [Finset.sum_congr rfl this, Finset.sum_ite_eq']
      simp [CounterState.init, PendingMap.zero, hd]
    · have : ∀ i ∈ Finset.univ (α := Fin shardCount),
          (if i = shardOf k ∧ d2 = d then (N : Nat) else 0) = 0 :=
        fun i _ => by simp [hd]
      rw [Finset.sum_congr rfl this, Finset.sum_const_zero]
      simp [CounterState.init, PendingMap.zero, hd]
  refine ⟨?_, ?_, ?_⟩
  · rw [incrementN_durable]
    unfold queryVersionTotal
    simp [CounterState.init, PendingMap.zero]
  · rw [hdur d]
    simp
  · unfold queryVersionTotal
    rw [Finset.sum_congr rfl (fun d2 _ => hdur d2), Finset.sum_ite_eq']
    simp [Finset.mem_Icc, h1, h2]

/-- Closed instance of the C3 theorem: three increments of the sample key
on day 0, queried over the window ending on day 0. -/
theorem query_counts_after_single_flush_witness :
    ((0 : Int) - 89 ≤ 0 ∧ (0 : Int) ≤ 0)
    ∧ queryVersionTotal (incrementN CounterState.init keyEx 0 3).durable
        keyEx 0 = 0
    ∧ (persistAllShards (incrementN CounterState.init keyEx 0 3)
        FlushEnv.ok).counter.durable keyEx 0 = 3
    ∧ queryVersionTotal
        (persistAllShards (incrementN CounterState.init keyEx 0 3)
          FlushEnv.ok).counter.durable keyEx 0 = 3 :=
  ⟨⟨by decide, by decide⟩,
    query_counts_after_single_flush keyEx 0 3 0 (by decide) (by decide)⟩

/-! ## Claim theorems for the query endpoints -/

/-- Claim C4: the version-level downloads query returns exactly the durable
records of that version whose date lies in the inclusive 90-day window
ending at the end date, ordered by ascending date. -/
theorem queryVersionDownloads_def (rows : List VersionDownloadRow)
    (vid endDate : Int) :
    queryVersionDownloads rows vid endDate =
      List.insertionSort dateLe (rows.filter fun r =>
        r.version_id == vid &&
          (decide (endDate - 89 ≤ r.date) && decide (r.date ≤ endDate))) := rfl

theorem query_window_exact (rows : List VersionDownloadRow)
    (vid endDate : Int) :
    List.Sorted dateLe (queryVersionDownloads rows vid endDate)
    ∧ (queryVersionDownloads rows vid endDate).Perm
        (rows.filter fun r =>
          decide (r.version_id = vid ∧ endDate - 89 ≤ r.date ∧ r.date ≤ endDate))
    ∧ ∀ r, r ∈ queryVersionDownloads rows vid endDate ↔
        (r ∈ rows ∧ r.version_id = vid ∧
          endDate - 89 ≤ r.date ∧ r.date ≤ endDate) := by
  have hfc : (rows.filter fun r =>
      r.version_id == vid &&
        (decide (endDate - 89 ≤ r.date) && decide (r.date ≤ endDate)))
      = rows.filter fun r =>
        decide (r.version_id = vid ∧ endDate - 89 ≤ r.date ∧ r.date ≤ endDate) := by
    apply List.filter_congr
    intro r _
    by_cases h1 : r.version_id = vid <;> by_cases h2 : endDate - 89 ≤ r.date <;>
      by_cases h3 : r.date ≤ endDate <;> simp [h1, h2, h3]
  refine ⟨?_, ?_, ?_⟩
  · rw [queryVersionDownloads_def]
    exact List.sorted_insertionSort dateLe _
  · rw [queryVersionDownloads_def, hfc]
    exact List.perm_insertionSort dateLe _
  · intro r
    rw [queryVersionDownloads_def]
    simp [List.mem_filter, and_assoc]

/-- Closed instance of the C4 theorem: the sample rows queried for version
7 with the window ending on day 0. -/
theorem query_window_exact_witness :
    List.Sorted dateLe (queryVersionDownloads rowsEx 7 0)
    ∧ (queryVersionDownloads rowsEx 7 0).Perm
        (rowsEx.filter fun r =>
          decide (r.version_id = 7 ∧ (0 : Int) - 89 ≤ r.date ∧ r.date ≤ 0)) :=
  ⟨(query_window_exact rowsEx 7 0).1, (query_window_exact rowsEx 7 0).2.1⟩

/-- Sum of a one-hot list: with no duplicate ids, summing `c` at the hit
position gives `c` when the id occurs and 0 otherwise. -/
theorem sum_map_ite (c x : Int) :
    ∀ ids : List Int, ids.Nodup →
      (ids.map fun v => if x = v then c else 0).sum =
        if x ∈ ids then c else 0 := by
  intro ids
  induction ids with
  | nil => intro _; simp
  | cons a l ih =>
    intro hnd
    rw [List.map_cons, List.sum_cons, ih (List.nodup_cons.mp hnd).2]
    by_cases hxa : x = a
    · subst hxa
      have hnl : x ∉ l := (List.nodup_cons.mp hnd).1
      simp [hnl]
    · simp [hxa, List.mem_cons]

/-- Splitting a filtered map-sum at the head row. -/
theorem filter_map_sum_cons (p : VersionDownloadRow → Bool)
    (r : VersionDownloadRow) (rest : List VersionDownloadRow) :
    ((List.filter p (r :: rest)).map (fun r2 => r2.downloads)).sum =
      (if p r = true then r.downloads else 0) +
        ((List.filter p rest).map (fun r2 => r2.downloads)).sum := by
  rw [List.filter_cons]
  by_cases hb : p r = true
  · rw [if_pos hb, if_pos hb, List.map_cons, List.sum_cons]
  · rw [if_neg hb, if_neg hb, Int.zero_add]

/-- The package-level sum across a version-id list with no duplicates
decomposes into per-version filtered sums (with an arbitrary Boolean
window predicate `w`). -/
theorem package_sum_decomposes (w : VersionDownloadRow → Bool) :
    ∀ (rows : List VersionDownloadRow) (ids : List Int), ids.Nodup →
      ((rows.filter fun r => ids.contains r.version_id && w r).map
        (fun r => r.downloads)).sum =
      (ids.map fun v =>
        ((rows.filter fun r => r.version_id == v && w r).map
          (fun r => r.downloads)).sum).sum := by
  intro rows
  induction rows with
  | nil => intro ids _; simp
  | cons r rest ih =>
    intro ids hnd
    rw [filter_map_sum_cons, ih ids hnd]
    have hkey : ∀ v : Int,
        ((List.filter (fun r2 => r2.version_id == v && w r2) (r :: rest)).map
          (fun r2 => r2.downloads)).sum =
        (if (r.version_id == v && w r) = true then r.downloads else 0) +
          ((List.filter (fun r2 => r2.version_id == v && w r2) rest).map
            (fun r2 => r2.downloads)).sum := fun v => filter_map_sum_cons _ r rest
    rw [List.map_congr_left fun v _ => hkey v, List.sum_map_add]
    have hce : (ids.contains r.version_id = true) ↔ r.version_id ∈ ids :=
      List.elem_iff
    have hhead : (if (ids.contains r.version_id && w r) = true
          then r.downloads else 0) =
        (ids.map fun v =>
          if (r.version_id == v && w r) = true then r.downloads else 0).sum := by
      by_cases hw : w r = true
      · have hmc : (ids.map fun v =>
            if (r.version_id == v && w r) = true then r.downloads else 0)
            = ids.map fun v => if r.version_id = v then r.downloads else 0 := by
          apply List.map_congr_left
          intro v _
          by_cases hv : r.version_id = v <;> simp [hv, hw]
        rw [hmc, sum_map_ite _ _ ids hnd]
        by_cases hm : r.version_id ∈ ids <;> simp [hw, hm, hce]
      · simp [hw]
    omega

/-- Claim C5: the package-level downloads query returns the same result
with any caller-supplied end-date override as with none — it always
aggregates across all versions of the package over the trailing 90-day
window ending today, ignoring `before_date`; and with duplicate-free
version ids it equals the sum of the per-version windowed queries ending
today. -/
theorem package_query_ignores_before_date (rows : List VersionDownloadRow)
    (ids : List Int) (q : Option String) (today : Int) (hnd : ids.Nodup) :
    queryPackageDownloads rows ids q today =
      queryPackageDownloads rows ids none today
    ∧ queryPackageDownloads rows ids q today =
        (ids.map fun v =>
          ((queryVersionDownloads rows v today).map fun r => r.downloads).sum).sum := by
  constructor
  · rfl
  · have hsort : ∀ v : Int,
        ((queryVersionDownloads rows v today).map fun r => r.downloads).sum =
        ((rows.filter fun r => r.version_id == v &&
            (decide (today - 89 ≤ r.date) && decide (r.date ≤ today))).map
          fun r => r.downloads).sum := by
      intro v
      rw [queryVersionDownloads_def]
      exact List.Perm.sum_eq ((List.perm_insertionSort dateLe _).map _)
    rw [List.map_congr_left fun v _ => hsort v]
    exact package_sum_decomposes
      (fun r => decide (today - 89 ≤ r.date) && decide (r.date ≤ today))
      rows ids hnd

/-- Closed instance of the C5 theorem: three rows of two packages, one row
outside the window, queried with a (well-formed) historical override that
the package-level query ignores. -/
theorem package_query_ignores_before_date_witness :
    idsEx.Nodup
    ∧ queryPackageDownloads rowsEx idsEx (some "2019-01-01") 0 =
        queryPackageDownloads rowsEx idsEx none 0
    ∧ queryPackageDownloads rowsEx idsEx (some "2019-01-01") 0 =
        (idsEx.map fun v =>
          ((queryVersionDownloads rowsEx v 0).map fun r => r.downloads).sum).sum :=
  ⟨by decide,
    package_query_ignores_before_date rowsEx idsEx (some "2019-01-01") 0
      (by decide)⟩

/-- Claim C6 (divergence witness): the `download` handler returns a 302
redirect computed from the storage resolver even for the wrongly-cased
crate name `FOO_DOWNLOAD` (stored: `foo_download`), never a 404 — yet the
repository's own test (src/tests/routes/crates/downloads.rs, lines 68-69)
asserts `NOT_FOUND` for exactly this request. -/
theorem wrong_case_download_still_redirects
    (crate_location : String → String → String) :
    (download crate_location false "FOO_DOWNLOAD" "1.0.0").status = 302
    ∧ (download crate_location false "FOO_DOWNLOAD" "1.0.0").status ≠ 404
    ∧ get_version_id dbEx "FOO_DOWNLOAD" "1.0.0" = none := by
  refine ⟨rfl, by simp [download, Response.status], by decide⟩

/-- Claim C7: a version string that fails semver parsing makes the
downloads query endpoint return the version-not-found error — never a
generic bad-request — before anything else happens. -/
theorem malformed_version_is_not_found (db : Db) (avail : Bool)
    (crate_name version : String) (q : Option String) (today : Int)
    (h : semverParseOk version = false) :
    (downloads db avail crate_name version q today).1 =
      Except.error (ApiError.versionNotFound crate_name version)
    ∧ ∀ msg, (downloads db avail crate_name version q today).1 ≠
        Except.error (ApiError.badRequest msg) := by
  unfold downloads
  rw [h]
  exact ⟨rfl, fun msg => by simp⟩

/-- Closed instance of the C7 theorem, at two malformed version strings:
`"1.0"` (two components instead of three) and
`"18446744073709551616.0.0"` (major component of 2^64, one past the
`u64` bound of the parser). -/
theorem malformed_version_is_not_found_witness :
    (semverParseOk "1.0" = false
      ∧ semverParseOk "18446744073709551616.0.0" = false)
    ∧ (downloads dbEx true "foo_download" "1.0" none 0).1 =
        Except.error (ApiError.versionNotFound "foo_download" "1.0")
    ∧ (downloads dbEx true "foo_download" "18446744073709551616.0.0" none 0).1 =
        Except.error
          (ApiError.versionNotFound "foo_download" "18446744073709551616.0.0") :=
  ⟨⟨by decide, by decide⟩,
    (malformed_version_is_not_found dbEx true "foo_download" "1.0" none 0
      (by decide)).1,
    (malformed_version_is_not_found dbEx true "foo_download"
      "18446744073709551616.0.0" none 0 (by decide)).1⟩

/-- Claim C8: an absent or unparseable `before_date` parameter makes the
downloads query use today as the end date, and the handler behaves exactly
as if the parameter were absent — it never errors on that parameter. -/
theorem malformed_date_falls_back_to_today (db : Db) (avail : Bool)
    (crate_name version : String) (q : Option String) (today : Int)
    (h : q = none ∨ ∃ s, q = some s ∧ parseDateF s = none) :
    cutoffEndDate q today = today
    ∧ downloads db avail crate_name version q today =
        downloads db avail crate_name version none today := by
  have hc : cutoffEndDate q today = today := by
    rcases h with h | ⟨s, rfl, hs⟩
    · rw [h]; rfl
    · simp [cutoffEndDate, hs]
  refine ⟨hc, ?_⟩
  unfold downloads
  rw [hc]
  rfl

/-- Closed instance of the C8 theorem: the invalid date string
`"2024-13-01"` (month 13). -/
theorem malformed_date_falls_back_to_today_witness :
    parseDateF "2024-13-01" = none
    ∧ cutoffEndDate (some "2024-13-01") 20008 = 20008
    ∧ downloads dbEx true "foo_download" "1.0.0" (some "2024-13-01") 20008 =
        downloads dbEx true "foo_download" "1.0.0" none 20008 :=
  ⟨by decide,
    malformed_date_falls_back_to_today dbEx true "foo_download" "1.0.0"
      (some "2024-13-01") 20008
      (Or.inr ⟨"2024-13-01", rfl, by decide⟩)⟩

/-- Claim C9: for every crate name and version string — whether or not
they exist in any catalog — the download redirect handler returns a
successful response computed solely from the storage-location resolver's
value at that pair: a 302 redirect, or a JSON url body under content
negotiation, never an error status. -/
theorem download_handler_total (crate_location : String → String → String)
    (wants_json : Bool) (crate_name version : String) :
    download crate_location wants_json crate_name version =
      (if wants_json then Response.jsonUrl (crate_location crate_name version)
        else Response.redirect (crate_location crate_name version))
    ∧ ((download crate_location wants_json crate_name version).status = 302 ∨
        (download crate_location wants_json crate_name version).status = 200)
    ∧ (download crate_location wants_json crate_name version).status ≠ 404
    ∧ ∀ crate_location2 : String → String → String,
        crate_location crate_name version = crate_location2 crate_name version →
        download crate_location wants_json crate_name version =
          download crate_location2 wants_json crate_name version := by
  refine ⟨rfl, ?_, ?_, ?_⟩
  · cases wants_json <;> simp [download, Response.status]
  · cases wants_json <;> simp [download, Response.status]
  · intro loc2 h
    unfold download
    rw [h]

/-- Closed instance of the C9 theorem: two different resolvers agreeing at
`("foo", "1.0.0")` yield the same successful response for a crate absent
from any catalog. -/
theorem download_handler_total_witness :
    locA "foo" "1.0.0" = locB "foo" "1.0.0"
    ∧ (download locA false "foo" "1.0.0").status = 302
    ∧ download locA false "foo" "1.0.0" = download locB false "foo" "1.0.0" :=
  ⟨by decide,
    Or.resolve_right ((download_handler_total locA false "foo" "1.0.0").2.1)
      (by decide),
    (download_handler_total locA false "foo" "1.0.0").2.2.2 locB (by decide)⟩

/-- Claim C10: in the downloads query handler, semver validation precedes
all database access — a version string that fails to parse produces the
not-found result with an empty database-access log, and the whole result
is independent of the database state and connection availability. -/
theorem version_check_precedes_db_access (db : Db) (avail : Bool)
    (crate_name version : String) (q : Option String) (today : Int)
    (h : semverParseOk version = false) :
    (downloads db avail crate_name version q today).2 = []
    ∧ ∀ (db2 : Db) (avail2 : Bool),
        downloads db avail crate_name version q today =
          downloads db2 avail2 crate_name version q today := by
  unfold downloads
  rw [h]
  exact ⟨rfl, fun _ _ => rfl⟩

/-- Closed instance of the C10 theorem: the malformed version
`"not-a-version"` leaves the database-access log empty on two different
database states. -/
theorem version_check_precedes_db_access_witness :
    semverParseOk "not-a-version" = false
    ∧ (downloads dbEx true "foo_download" "not-a-version" none 0).2 = []
    ∧ downloads dbEx true "foo_download" "not-a-version" none 0 =
        downloads ⟨[], [], []⟩ false "foo_download" "not-a-version" none 0 :=
  ⟨by decide,
    (version_check_precedes_db_access dbEx true "foo_download"
      "not-a-version" none 0 (by decide)).1,
    (version_check_precedes_db_access dbEx true "foo_download"
      "not-a-version" none 0 (by decide)).2 ⟨[], [], []⟩ false⟩

end Crates
